import Mathlib

/-!
# Verification of the pixel-paint rendering/interaction core

Shallow embedding of the paint engine, gesture recognizer, viewport
transform and progress tracker of the Workspace component
(`src/unnamed/part_007`, final `Cell` variant of `src/types.ts`:
`{colorIndex, filled, filledColorIndex?}`), together with proofs of the
spec's testable properties.

Numbers: palette indices and grid coordinates are `Nat`; screen
coordinates, zoom and pan are modelled as `ℚ` (the exact-arithmetic
idealization of the JS doubles).
-/

namespace PixelPaint

/-- Constants from `part_007` lines 19-21. -/
def BASE_CELL_SIZE : ℚ := 20

def MIN_ZOOM : ℚ := 1 / 10

def MAX_ZOOM : ℚ := 5

/-- One grid cell, final variant of `src/types.ts`:
`colorIndex` is the target palette index, `filledColorIndex` the applied
color (`none` = not filled). -/
structure Cell where
  colorIndex : Nat
  filled : Bool
  filledColorIndex : Option Nat
deriving Repr, DecidableEq

/-- The derived correctness predicate used by the progress tracker
(`part_007` line 720): the applied color equals the target color. -/
def cellCorrect (c : Cell) : Prop := c.filledColorIndex = some c.colorIndex

instance (c : Cell) : Decidable (cellCorrect c) := by
  unfold cellCorrect; infer_instance

/-- Well-formedness documented on the `Cell` type
(`filledColorIndex?: // undefined = not filled`): a cell with an applied
color is marked `filled`.  Holds for freshly converted grids (no applied
colors) and is preserved by every canonical mutation (every `setGrid`
writes `filled: true` together with `filledColorIndex`). -/
def gridWF (g : List Cell) : Prop :=
  ∀ c ∈ g, c.filledColorIndex ≠ none → c.filled = true

instance (g : List Cell) : Decidable (gridWF g) := by
  unfold gridWF; infer_instance

/-- The per-cell update performed by the stroke-end commit
(`handlePointerUp` lines 1307-1321) and by the multi-cell tap
(`handleTap` lines 1108-1122): fill unless the cell is already correctly
filled. -/
def commitCell (color : Nat) (c : Cell) : Cell :=
  if ¬ c.filled = true ∨ ¬ c.filledColorIndex = some c.colorIndex then
    { c with filled := true, filledColorIndex := some color }
  else c

/-- One iteration of the batched-commit loop body. -/
def commitStep (color : Nat) (g : List Cell) (i : Nat) : List Cell :=
  match g[i]? with
  | some c => g.set i (commitCell color c)
  | none => g

/-- The canonical-grid write of a batched commit: apply `commitCell` to
every touched index (`handlePointerUp` lines 1303-1321). -/
def commitStroke (color : Nat) (idxs : List Nat) (grid : List Cell) : List Cell :=
  idxs.foldl (commitStep color) grid

/-- Result of `fillCellAtIndex` (`part_007` lines 994-1044): the possibly
updated canonical grid, the boolean return value, and how many canonical
(`setGrid`) writes were performed. -/
structure FillResult where
  grid : List Cell
  changed : Bool
  writes : Nat
deriving Repr, DecidableEq

/-- Function `fillCellAtIndex` (`part_007` lines 994-1044).  `painting` is
`isPaintingRef.current`: during a drag stroke the canonical update is
skipped (batched to the stroke-end commit). -/
def fillCellAtIndex (painting : Bool) (sel : Nat) (grid : List Cell) (index : Nat) :
    FillResult :=
  match grid[index]? with
  | none => ⟨grid, false, 0⟩
  | some cell =>
    if cell.filledColorIndex = some sel then ⟨grid, false, 0⟩
    else if cell.filled = true ∧ cell.filledColorIndex = some cell.colorIndex then
      ⟨grid, false, 0⟩
    else if painting then ⟨grid, true, 0⟩
    else ⟨grid.set index { cell with filled := true, filledColorIndex := some sel },
      true, 1⟩

/-- Brush-area bounds of `fillCellsWithBrush` (`part_007` lines
1055-1060): odd sizes center on the clicked cell, even sizes anchor at
it; the start is clamped to 0 (Nat subtraction) and the end clipped to
the grid edge. -/
def brushStart (brushSize center : Nat) : Nat :=
  center - (if brushSize % 2 = 0 then 0 else brushSize / 2)

def brushEnd (limit brushSize center : Nat) : Nat :=
  min (limit - 1) (brushStart brushSize center + brushSize - 1)

/-- The indices visited by the `fillCellsWithBrush` double loop
(`part_007` lines 1063-1064), before any per-cell skip. -/
def brushFootprint (width height brushSize centerCol centerRow : Nat) : List Nat :=
  (List.range' (brushStart brushSize centerRow)
      (brushEnd height brushSize centerRow + 1 - brushStart brushSize centerRow)).flatMap
    fun row =>
      (List.range' (brushStart brushSize centerCol)
          (brushEnd width brushSize centerCol + 1 - brushStart brushSize centerCol)).map
        fun col => row * width + col

/-- Per-cell skip conditions of `fillCellsWithBrush` (lines 1068-1076):
skip when the same color is already applied, or the cell is already
correctly filled. -/
def brushSkips (sel : Nat) (c : Cell) : Prop :=
  c.filledColorIndex = some sel ∨
    (c.filled = true ∧ c.filledColorIndex = some c.colorIndex)

instance (sel : Nat) (c : Cell) : Decidable (brushSkips sel c) := by
  unfold brushSkips; infer_instance

/-- Function `fillCellsWithBrush` (`part_007` lines 1050-1094): returns the set of
indices actually filled (drawn optimistically); the canonical grid is
never written here. -/
def fillCellsWithBrush (width height brushSize sel : Nat) (grid : List Cell)
    (centerCol centerRow : Nat) : List Nat :=
  (brushFootprint width height brushSize centerCol centerRow).filter
    fun index =>
      match grid[index]? with
      | none => false
      | some c => decide (¬ brushSkips sel c)

/-- Predicate `isValidPaintStartCell` (`part_007` lines 1132-1135): the cell is not
filled at all and its target color is the selected color. -/
def isValidPaintStartCell (sel : Nat) (grid : List Cell) (index : Nat) : Bool :=
  match grid[index]? with
  | some c => !c.filled && decide (c.colorIndex = sel)
  | none => false

/-- Handler `handleTap` (`part_007` lines 1097-1129): result of tapping at a
resolved grid position (`r = screenToGrid(...)`), returning the new
canonical grid and the number of canonical writes. -/
def handleTap (width height brushSize sel : Nat) (grid : List Cell)
    (r : Option (Nat × Nat)) : List Cell × Nat :=
  match r with
  | none => (grid, 0)
  | some (col, row) =>
    if brushSize = 1 then
      let fr := fillCellAtIndex false sel grid (row * width + col)
      (fr.grid, fr.writes)
    else
      let touched := fillCellsWithBrush width height brushSize sel grid col row
      if touched ≠ [] then (commitStroke sel touched grid, 1) else (grid, 0)

/-- Transient stroke-session state: the refs mutated by the pointer
handlers, plus a counter of canonical (`setGrid`) writes. -/
structure Stroke where
  grid : List Cell
  isPainting : Bool
  isPanning : Bool
  painted : List Nat
  dragDistance : ℚ
  writes : Nat
deriving Repr, DecidableEq

/-- Insert an index into the `paintedCellsInStroke` set (modelled as a
duplicate-free list). -/
def paintedInsert (i : Nat) (s : List Nat) : List Nat :=
  if i ∈ s then s else s ++ [i]

def paintedInsertAll (new : List Nat) (s : List Nat) : List Nat :=
  new.foldl (fun acc i => paintedInsert i acc) s

/-- Handler `handlePointerDown`, first-pointer branch (`part_007` lines
1138-1187): classify as Paint (valid start cell) or Pan, and in Paint
mode immediately apply the brush to the starting footprint.
`r` is the `screenToGrid` result for the pointer position. -/
def handlePointerDown (width height brushSize sel : Nat) (grid : List Cell)
    (r : Option (Nat × Nat)) : Stroke :=
  match r with
  | some (col, row) =>
    if isValidPaintStartCell sel grid (row * width + col) then
      if brushSize = 1 then
        let fr := fillCellAtIndex true sel grid (row * width + col)
        ⟨fr.grid, true, false, [row * width + col], 0, fr.writes⟩
      else
        ⟨grid, true, false,
          fillCellsWithBrush width height brushSize sel grid col row, 0, 0⟩
    else ⟨grid, false, true, [], 0, 0⟩
  | none => ⟨grid, false, true, [], 0, 0⟩

/-- A pointer-down while a pointer is already active (`part_007` lines
1139-1146 with `evCache.length ≠ 1`): the mode flags are reset and the
stroke's painted set is cleared; no commit happens. -/
def secondPointerDown (s : Stroke) : Stroke :=
  { s with isPainting := false, isPanning := false, painted := [] }

/-- Single-pointer `handlePointerMove` (`part_007` lines 1237-1277).
`r` is the `screenToGrid` result, `dx dy` the pointer deltas.  In Paint
mode cells are filled optimistically and recorded; in Pan mode only the
pan/drag bookkeeping changes (the pan offset itself is tracked by the
viewport, outside the stroke session). -/
def handlePointerMoveSingle (width height brushSize sel : Nat)
    (r : Option (Nat × Nat)) (dx dy : ℚ) (s : Stroke) : Stroke :=
  if s.isPainting then
    let s1 :=
      match r with
      | some (col, row) =>
        if brushSize = 1 then
          if (row * width + col) ∈ s.painted then s
          else
            let fr := fillCellAtIndex true sel s.grid (row * width + col)
            { s with
              grid := fr.grid,
              writes := s.writes + fr.writes,
              painted := paintedInsert (row * width + col) s.painted }
        else
          let touched := fillCellsWithBrush width height brushSize sel s.grid col row
          { s with painted := paintedInsertAll touched s.painted }
      | none => s
    { s1 with dragDistance := s1.dragDistance + |dx| + |dy| }
  else if s.isPanning then
    { s with dragDistance := s.dragDistance + |dx| + |dy| }
  else s

/-- Handler `handlePointerUp`, last-pointer branch (`part_007` lines 1298-1341):
commit a paint stroke's touched set in one canonical write, resolve a
short-drag pan as a tap, and reset the session.  `r` is the
`screenToGrid` result at the release point. -/
def handlePointerUp (width height brushSize sel : Nat)
    (r : Option (Nat × Nat)) (s : Stroke) : Stroke :=
  let s1 :=
    if s.isPainting = true ∧ s.painted ≠ [] then
      { s with grid := commitStroke sel s.painted s.grid, writes := s.writes + 1 }
    else s
  let s2 :=
    if s.isPanning = true ∧ s.dragDistance < 15 then
      let t := handleTap width height brushSize sel s1.grid r
      { s1 with grid := t.1, writes := s1.writes + t.2 }
    else s1
  { s2 with isPainting := false, isPanning := false, painted := [] }

/-- The `onPointerLeave` binding (`part_007` lines 1511-1518): after a cursor
reset (pure DOM, not modelled) it forwards the event to
`handlePointerUp`. -/
def handlePointerLeave (width height brushSize sel : Nat)
    (r : Option (Nat × Nat)) (s : Stroke) : Stroke :=
  handlePointerUp width height brushSize sel r s

/-- The `onPointerCancel` binding (`part_007` line 1519): `handlePointerUp`
itself. -/
def handlePointerCancel (width height brushSize sel : Nat)
    (r : Option (Nat × Nat)) (s : Stroke) : Stroke :=
  handlePointerUp width height brushSize sel r s

/-- Viewport state: zoom factor and pan offset in screen pixels. -/
structure Viewport where
  zoom : ℚ
  panX : ℚ
  panY : ℚ
deriving Repr, DecidableEq

/-- Function `screenToGrid` (`part_007` lines 926-950): container-relative screen
coordinates to a grid cell, or `none` when the computed cell lies outside
`[0,width) × [0,height)`. -/
def screenToGrid (width height : Nat) (v : Viewport) (x y : ℚ) :
    Option (Nat × Nat) :=
  let gridX := (x - v.panX) / v.zoom
  let gridY := (y - v.panY) / v.zoom
  let col : ℤ := ⌊gridX / BASE_CELL_SIZE⌋
  let row : ℤ := ⌊gridY / BASE_CELL_SIZE⌋
  if 0 ≤ col ∧ col < (width : ℤ) ∧ 0 ≤ row ∧ row < (height : ℤ) then
    some (col.toNat, row.toNat)
  else none

/-- The zoom-at-point update shared by `handleWheel` (`part_007` lines
1383-1401) and the pinch branch of `handlePointerMove` (lines 1216-1229):
clamp the new zoom and recompute pan so the world point under the anchor
stays put. -/
def zoomAtPoint (v : Viewport) (anchorX anchorY factor : ℚ) : Viewport :=
  let newZoom := max MIN_ZOOM (min MAX_ZOOM (v.zoom * factor))
  let worldX := (anchorX - v.panX) / v.zoom
  let worldY := (anchorY - v.panY) / v.zoom
  ⟨newZoom, anchorX - worldX * newZoom, anchorY - worldY * newZoom⟩

/-- The cell-origin → screen mapping implied by the transform:
`screen = world · zoom + pan` per axis. -/
def worldToScreenX (v : Viewport) (wx : ℚ) : ℚ := wx * v.zoom + v.panX

def worldToScreenY (v : Viewport) (wy : ℚ) : ℚ := wy * v.zoom + v.panY

/-- Count of correctly filled cells, as in the single-pass completion
effect (`part_007` lines 719-730): `filledColorIndex === colorIndex`. -/
def correctlyFilled (g : List Cell) : Nat :=
  g.countP fun c => decide (cellCorrect c)

/-- Overall completion percent (`part_007` line 733):
`Math.round((correctlyFilled / total) * 100)`. -/
def overallPercent (g : List Cell) : ℤ :=
  round (((correctlyFilled g : ℚ) / (g.length : ℚ)) * 100)

/-- Function `getColorProgress` (`part_007` lines 1429-1434): per-color progress,
reporting 100 for a color with no cells. -/
def getColorProgress (g : List Cell) (idx : Nat) : ℤ :=
  let total := (g.filter fun c => decide (c.colorIndex = idx)).length
  let correct :=
    (g.filter fun c =>
       decide (c.colorIndex = idx) && decide (c.filledColorIndex = some idx)).length
  if total = 0 then 100 else round (((correct : ℚ) / (total : ℚ)) * 100)

/-- A canonical paint operation: the only two shapes of `setGrid` write.
`single` is the tap path of `fillCellAtIndex` (lines 1033-1041); `batch`
is the guarded bulk write shared by the multi-cell tap (lines 1108-1122)
and the stroke-end commit (lines 1307-1321). -/
inductive PaintOp where
  | single (sel : Nat) (index : Nat)
  | batch (sel : Nat) (idxs : List Nat)
deriving Repr, DecidableEq

def applyPaintOp (g : List Cell) : PaintOp → List Cell
  | .single sel index => (fillCellAtIndex false sel g index).grid
  | .batch sel idxs => commitStroke sel idxs g

def applyPaintOps (g : List Cell) (ops : List PaintOp) : List Cell :=
  ops.foldl applyPaintOp g

/-- The brush anchor offset as the spec/claim words it: odd sizes center
(`⌊size/2⌋`), even sizes anchor top-left (`0`). -/
def specBrushOffset (brushSize : Nat) : ℤ :=
  if brushSize % 2 = 0 then 0 else (brushSize / 2 : Nat)

/-- The footprint as claim C3 describes it: cell `(col,row)` belongs to
the `brushSize × brushSize` square placed at the anchor (centered for
odd, top-left for even sizes); clipping to bounds is then the
intersection with `[0,width) × [0,height)`. -/
def specFootprintMem (brushSize centerCol centerRow col row : Nat) : Prop :=
  (centerCol : ℤ) - specBrushOffset brushSize ≤ col ∧
  (col : ℤ) ≤ (centerCol : ℤ) - specBrushOffset brushSize + brushSize - 1 ∧
  (centerRow : ℤ) - specBrushOffset brushSize ≤ row ∧
  (row : ℤ) ≤ (centerRow : ℤ) - specBrushOffset brushSize + brushSize - 1

instance (brushSize centerCol centerRow col row : Nat) :
    Decidable (specFootprintMem brushSize centerCol centerRow col row) := by
  unfold specFootprintMem; infer_instance

/-- C5: `zoomAtPoint` clamps the zoom into `[MIN_ZOOM, MAX_ZOOM]` and
recomputes pan as `anchor − ((anchor − pan)/zoom)·newZoom` per axis, so
the world point under the anchor maps to the anchor both before and
after the operation (exact in the rational model). -/
theorem C5_zoom_at_point (v : Viewport) (ax ay factor : ℚ) (hz : 0 < v.zoom) :
    (zoomAtPoint v ax ay factor).zoom = max MIN_ZOOM (min MAX_ZOOM (v.zoom * factor)) ∧
    (zoomAtPoint v ax ay factor).panX =
      ax - ((ax - v.panX) / v.zoom) * (zoomAtPoint v ax ay factor).zoom ∧
    (zoomAtPoint v ax ay factor).panY =
      ay - ((ay - v.panY) / v.zoom) * (zoomAtPoint v ax ay factor).zoom ∧
    worldToScreenX v ((ax - v.panX) / v.zoom) = ax ∧
    worldToScreenY v ((ay - v.panY) / v.zoom) = ay ∧
    worldToScreenX (zoomAtPoint v ax ay factor) ((ax - v.panX) / v.zoom) = ax ∧
    worldToScreenY (zoomAtPoint v ax ay factor) ((ay - v.panY) / v.zoom) = ay ∧
    MIN_ZOOM ≤ (zoomAtPoint v ax ay factor).zoom ∧
    (zoomAtPoint v ax ay factor).zoom ≤ MAX_ZOOM := by
  have hz0 : v.zoom ≠ 0 := ne_of_gt hz
  refine ⟨rfl, rfl, rfl, ?_, ?_, ?_, ?_, ?_, ?_⟩
  · unfold worldToScreenX
    field_simp
  · unfold worldToScreenY
    field_simp
  · unfold worldToScreenX zoomAtPoint
    ring
  · unfold worldToScreenY zoomAtPoint
    ring
  · unfold zoomAtPoint
    exact le_max_left _ _
  · unfold zoomAtPoint
    exact max_le (by unfold MIN_ZOOM MAX_ZOOM; norm_num) (min_le_left _ _)

/-- C5 witness: the spec's scenario 3 — `zoom = 1`, `pan = (0,0)`,
`zoomAtPoint((100,100), 1.5)` yields `zoom = 1.5`, `pan = (−50,−50)` and
keeps the anchor fixed. -/
theorem C5_zoom_at_point_witness :
    (0 : ℚ) < (Viewport.mk 1 0 0).zoom ∧
    (zoomAtPoint ⟨1, 0, 0⟩ 100 100 (3 / 2)).zoom =
      max MIN_ZOOM (min MAX_ZOOM ((Viewport.mk 1 0 0).zoom * (3 / 2))) ∧
    worldToScreenX (zoomAtPoint ⟨1, 0, 0⟩ 100 100 (3 / 2))
      ((100 - (Viewport.mk 1 0 0).panX) / (Viewport.mk 1 0 0).zoom) = 100 :=
  ⟨by norm_num,
   (C5_zoom_at_point ⟨1, 0, 0⟩ 100 100 (3 / 2) (by norm_num)).1,
   (C5_zoom_at_point ⟨1, 0, 0⟩ 100 100 (3 / 2) (by norm_num)).2.2.2.2.2.1⟩

/-- C10: `getColorProgress` never divides by zero — a palette index with
no cells reports 100, any other index reports
`round(100 · correctly-filled / total)`. -/
theorem C10_color_progress (g : List Cell) (idx : Nat) :
    ((g.filter fun c => decide (c.colorIndex = idx)).length = 0 →
      getColorProgress g idx = 100) ∧
    ((g.filter fun c => decide (c.colorIndex = idx)).length ≠ 0 →
      getColorProgress g idx =
        round ((((g.filter fun c =>
              decide (c.colorIndex = idx) && decide (c.filledColorIndex = some idx)).length : ℚ) /
            ((g.filter fun c => decide (c.colorIndex = idx)).length : ℚ)) * 100)) := by
  unfold getColorProgress
  constructor
  · intro h
    simp [h]
  · intro h
    simp [h]

/-- C10 witness: a one-cell grid — palette index 1 has no cells and
reports 100; index 0 has one correctly filled cell. -/
theorem C10_color_progress_witness :
    getColorProgress [Cell.mk 0 true (some 0)] 1 = 100 ∧
    getColorProgress [Cell.mk 0 true (some 0)] 0 =
      round (((([Cell.mk 0 true (some 0)].filter fun c =>
            decide (c.colorIndex = 0) && decide (c.filledColorIndex = some 0)).length : ℚ) /
          (([Cell.mk 0 true (some 0)].filter fun c =>
            decide (c.colorIndex = 0)).length : ℚ)) * 100) :=
  ⟨(C10_color_progress [Cell.mk 0 true (some 0)] 1).1 (by decide),
   (C10_color_progress [Cell.mk 0 true (some 0)] 0).2 (by decide)⟩

/-- Row-major index decomposition is injective when columns are in
range. -/
lemma rowcol_index_inj (w r1 c1 r2 c2 : Nat) (h1 : c1 < w) (h2 : c2 < w)
    (he : r1 * w + c1 = r2 * w + c2) : r1 = r2 ∧ c1 = c2 := by
  have step : ∀ a b ca cb : Nat, ca < w → a < b → a * w + ca < b * w + cb := by
    intro a b ca cb hca hab
    calc a * w + ca < a * w + w := by omega
      _ = (a + 1) * w := by ring
      _ ≤ b * w := mul_le_mul_right' (by omega) w
      _ ≤ b * w + cb := Nat.le_add_right _ _
  have hr : r1 = r2 := by
    rcases Nat.lt_trichotomy r1 r2 with h | h | h
    · exact absurd he (Nat.ne_of_lt (step r1 r2 c1 c2 h1 h))
    · exact h
    · exact absurd he.symm (Nat.ne_of_lt (step r2 r1 c2 c1 h2 h))
  subst hr
  exact ⟨rfl, by omega⟩

/-- Membership in the brush double loop: exactly the indices of the
clamped rectangle `[brushStart, brushEnd]` in each axis. -/
lemma mem_brushFootprint (width height brushSize centerCol centerRow idx : Nat) :
    idx ∈ brushFootprint width height brushSize centerCol centerRow ↔
      ∃ col row : Nat, idx = row * width + col ∧
        brushStart brushSize centerCol ≤ col ∧
        col ≤ brushEnd width brushSize centerCol ∧
        brushStart brushSize centerRow ≤ row ∧
        row ≤ brushEnd height brushSize centerRow := by
  unfold brushFootprint
  simp only [List.mem_flatMap, List.mem_map, List.mem_range'_1]
  constructor
  · rintro ⟨row, ⟨hr1, hr2⟩, col, ⟨hc1, hc2⟩, rfl⟩
    exact ⟨col, row, rfl, hc1, by omega, hr1, by omega⟩
  · rintro ⟨col, row, rfl, hc1, hc2, hr1, hr2⟩
    exact ⟨row, ⟨hr1, by omega⟩, col, ⟨hc1, by omega⟩, rfl⟩

/-- Columns visited by the brush loop are below `width`. -/
lemma brushEnd_lt (limit brushSize center : Nat) (hc : center < limit) :
    brushEnd limit brushSize center < limit := by
  unfold brushEnd
  omega

/-- The brush loop visits no index twice. -/
lemma brushFootprint_nodup (width height brushSize centerCol centerRow : Nat)
    (hcc : centerCol < width) :
    (brushFootprint width height brushSize centerCol centerRow).Nodup := by
  unfold brushFootprint
  refine List.nodup_flatMap.2 ⟨?_, ?_⟩
  · intro row _
    refine List.Nodup.map ?_ (List.nodup_range' _ _ 1 Nat.one_pos)
    intro a b hab
    simp only [] at hab
    omega
  · refine List.Pairwise.imp ?_ (List.nodup_range' _ _ 1 Nat.one_pos)
    intro r1 r2 hne
    rw [Function.onFun, List.disjoint_left]
    rintro idx h1 h2
    rw [List.mem_map] at h1 h2
    obtain ⟨c1, hc1, rfl⟩ := h1
    obtain ⟨c2, hc2, he⟩ := h2
    rw [List.mem_range'_1] at hc1 hc2
    have hlt1 : c1 < width := by
      have := brushEnd_lt width brushSize centerCol hcc
      omega
    have hlt2 : c2 < width := by
      have := brushEnd_lt width brushSize centerCol hcc
      omega
    exact hne (rowcol_index_inj width r2 c2 r1 c1 hlt2 hlt1 he).1.symm

/-- C3 counterexample: on a 3×3 grid with `brushSize = 3` starting at
`(0,0)`, the code's footprint contains cell `(2,2)` (index 8), which is
outside the centered 3×3 square around `(0,0)` described by the claim —
the implementation clamps the start of the square to 0 and then extends
`brushSize` cells, so near the low edges the footprint shifts inward
instead of being clipped. -/
theorem C3_counterexample :
    2 * 3 + 2 ∈ brushFootprint 3 3 3 0 0 ∧ ¬ specFootprintMem 3 0 0 2 2 := by
  decide

/-- C3 (amended): the brush footprint is the rectangle
`[brushStart, brushEnd]²` where `brushStart = col − off` (clamped at 0,
`off = ⌊size/2⌋` for odd sizes, `0` for even sizes) and
`brushEnd = min (width−1) (brushStart+size−1)`; every visited index lies
inside the grid, no index is visited twice in one call, and the filled
set is a duplicate-free subset of the footprint. -/
theorem C3_brush_footprint (width height brushSize sel : Nat) (grid : List Cell)
    (centerCol centerRow : Nat)
    (hcc : centerCol < width) (hcr : centerRow < height) :
    (∀ idx, idx ∈ brushFootprint width height brushSize centerCol centerRow ↔
      ∃ col row : Nat, idx = row * width + col ∧
        brushStart brushSize centerCol ≤ col ∧
        col ≤ brushEnd width brushSize centerCol ∧
        brushStart brushSize centerRow ≤ row ∧
        row ≤ brushEnd height brushSize centerRow) ∧
    (∀ idx ∈ brushFootprint width height brushSize centerCol centerRow,
      idx < width * height) ∧
    (brushFootprint width height brushSize centerCol centerRow).Nodup ∧
    (fillCellsWithBrush width height brushSize sel grid centerCol centerRow).Nodup ∧
    (∀ idx ∈ fillCellsWithBrush width height brushSize sel grid centerCol centerRow,
      idx ∈ brushFootprint width height brushSize centerCol centerRow) := by
  refine ⟨fun idx => mem_brushFootprint width height brushSize centerCol centerRow idx,
    ?_, brushFootprint_nodup width height brushSize centerCol centerRow hcc,
    List.Nodup.filter _
      (brushFootprint_nodup width height brushSize centerCol centerRow hcc),
    fun idx h => List.mem_of_mem_filter h⟩
  intro idx h
  rw [mem_brushFootprint] at h
  obtain ⟨col, row, rfl, _, hc2, _, hr2⟩ := h
  have hcw : col < width := by
    have := brushEnd_lt width brushSize centerCol hcc
    omega
  have hrh : row < height := by
    have := brushEnd_lt height brushSize centerRow hcr
    omega
  calc row * width + col < row * width + width := by omega
    _ = (row + 1) * width := by ring
    _ ≤ height * width := Nat.mul_le_mul_right width hrh
    _ = width * height := Nat.mul_comm height width

/-- C3 witness: spec scenario 2 — `brushSize = 2` anchored at `(1,1)` of
a 3×3 grid: footprint `{(1,1),(2,1),(1,2),(2,2)}`, in bounds and
duplicate-free. -/
theorem C3_brush_footprint_witness :
    brushFootprint 3 3 2 1 1 = [4, 5, 7, 8] ∧
    (brushFootprint 3 3 2 1 1).Nodup ∧
    (∀ idx ∈ brushFootprint 3 3 2 1 1, idx < 3 * 3) :=
  ⟨by decide,
   (C3_brush_footprint 3 3 2 0 [] 1 1 (by decide) (by decide)).2.2.1,
   (C3_brush_footprint 3 3 2 0 [] 1 1 (by decide) (by decide)).2.1⟩

/-- C7: `screenToGrid` computes `col = ⌊((x − pan.x)/zoom)/cellSize⌋`
(likewise `row`) and returns the cell exactly when it lies in
`[0,width) × [0,height)`; on `none` the tap, paint-move and pointer-down
callers leave the canonical grid and the touched set untouched. -/
theorem C7_screen_to_grid (width height : Nat) (v : Viewport) (x y : ℚ)
    (brushSize sel : Nat) (grid : List Cell) (s : Stroke) (dx dy : ℚ) :
    (∀ col row : Nat, screenToGrid width height v x y = some (col, row) ↔
      ((col : ℤ) = ⌊(x - v.panX) / v.zoom / BASE_CELL_SIZE⌋ ∧
       (row : ℤ) = ⌊(y - v.panY) / v.zoom / BASE_CELL_SIZE⌋ ∧
       col < width ∧ row < height)) ∧
    (screenToGrid width height v x y = none →
      handleTap width height brushSize sel grid (screenToGrid width height v x y) =
        (grid, 0) ∧
      (handlePointerMoveSingle width height brushSize sel
        (screenToGrid width height v x y) dx dy s).grid = s.grid ∧
      (handlePointerMoveSingle width height brushSize sel
        (screenToGrid width height v x y) dx dy s).painted = s.painted ∧
      (handlePointerDown width height brushSize sel grid
        (screenToGrid width height v x y)).grid = grid ∧
      (handlePointerDown width height brushSize sel grid
        (screenToGrid width height v x y)).writes = 0) := by
  constructor
  · intro col row
    unfold screenToGrid
    dsimp only
    split
    case isTrue h =>
      simp only [Option.some.injEq, Prod.mk.injEq]
      constructor
      · rintro ⟨hc, hr⟩
        obtain ⟨h1, h2, h3, h4⟩ := h
        subst hc
        subst hr
        rw [Int.toNat_of_nonneg h1, Int.toNat_of_nonneg h3]
        refine ⟨rfl, rfl, ?_, ?_⟩ <;> omega
      · rintro ⟨hc, hr, _, _⟩
        rw [← hc, ← hr]
        simp
    case isFalse h =>
      simp only [false_iff, reduceCtorEq]
      rintro ⟨hc, hr, hcw, hrw⟩
      exact h ⟨by omega, by omega, by omega, by omega⟩
  · intro h
    rw [h]
    refine ⟨rfl, ?_, ?_, rfl, rfl⟩ <;>
    · unfold handlePointerMoveSingle
      cases hp : s.isPainting <;> cases hn : s.isPanning <;> simp [hp, hn]

/-- C7 witness: at identity viewport on a 3×3 grid, `(100, 0)` computes
`col = 5` which is out of bounds, so `screenToGrid` is `none` and a tap
there changes nothing. -/
theorem C7_screen_to_grid_witness :
    screenToGrid 3 3 ⟨1, 0, 0⟩ 100 0 = none ∧
    handleTap 3 3 1 0 [Cell.mk 0 false none] (screenToGrid 3 3 ⟨1, 0, 0⟩ 100 0) =
      ([Cell.mk 0 false none], 0) := by
  have hn : screenToGrid 3 3 ⟨1, 0, 0⟩ 100 0 = none := by
    unfold screenToGrid
    norm_num [BASE_CELL_SIZE]
  exact ⟨hn,
    ((C7_screen_to_grid 3 3 ⟨1, 0, 0⟩ 100 0 1 0 [Cell.mk 0 false none]
      ⟨[], false, false, [], 0, 0⟩ 0 0).2 hn).1⟩

/-- Lemma: `commitCell` leaves a filled cell alone when it already carries the
committed color or is already correct. -/
lemma commitCell_eq_self (sel : Nat) (c : Cell) (hf : c.filled = true)
    (h : c.filledColorIndex = some sel ∨ c.filledColorIndex = some c.colorIndex) :
    commitCell sel c = c := by
  unfold commitCell
  split
  case isTrue hg =>
    rcases h with h | h
    · cases c
      simp_all
    · rcases hg with hg | hg
      · exact absurd hf hg
      · exact absurd h hg
  case isFalse => rfl

/-- A position holding a cell fixed by `commitCell` survives one commit
step unchanged. -/
lemma commitStep_getElem (sel : Nat) (g : List Cell) (j i : Nat) (c : Cell)
    (hc : g[i]? = some c) (hfix : commitCell sel c = c) :
    (commitStep sel g j)[i]? = some c := by
  unfold commitStep
  cases hj : g[j]? with
  | none => exact hc
  | some d =>
    by_cases hij : j = i
    · subst hij
      rw [hj] at hc
      injection hc with hdc
      subst hdc
      have hlt : j < g.length := (List.getElem?_eq_some.1 hj).1
      rw [List.getElem?_set_eq_of_lt _ hlt, hfix]
    · rw [List.getElem?_set_ne hij]
      exact hc

/-- A position holding a cell fixed by `commitCell` survives the whole
batched commit unchanged. -/
lemma commitStroke_getElem (sel : Nat) (idxs : List Nat) (grid : List Cell)
    (i : Nat) (c : Cell) (hc : grid[i]? = some c) (hfix : commitCell sel c = c) :
    (commitStroke sel idxs grid)[i]? = some c := by
  induction idxs generalizing grid with
  | nil => exact hc
  | cons j rest ih =>
    unfold commitStroke at ih ⊢
    rw [List.foldl_cons]
    exact ih (commitStep sel grid j) (commitStep_getElem sel grid j i c hc hfix)

/-- During a drag stroke (`painting = true`) `fillCellAtIndex` never
writes the canonical grid. -/
lemma fillCellAtIndex_painting (sel : Nat) (g : List Cell) (i : Nat) :
    (fillCellAtIndex true sel g i).grid = g ∧
    (fillCellAtIndex true sel g i).writes = 0 := by
  unfold fillCellAtIndex
  cases hg : g[i]? with
  | none => exact ⟨rfl, rfl⟩
  | some c =>
    dsimp only
    split_ifs with h1 h2 h3
    · exact ⟨rfl, rfl⟩
    · exact ⟨rfl, rfl⟩
    · exact ⟨rfl, rfl⟩
    · exact absurd rfl h3

/-- Lemma: `fillCellAtIndex` is a no-op on a cell that is correctly filled. -/
lemma fillCellAtIndex_correct_noop (painting : Bool) (sel : Nat) (g : List Cell)
    (i : Nat) (c : Cell) (hc : g[i]? = some c) (hf : c.filled = true)
    (hcor : c.filledColorIndex = some c.colorIndex) :
    fillCellAtIndex painting sel g i = ⟨g, false, 0⟩ := by
  unfold fillCellAtIndex
  rw [hc]
  by_cases h1 : c.filledColorIndex = some sel
  · simp [h1]
  · simp [h1, hf, hcor]

/-- Lemma: `fillCellAtIndex` is a no-op on a cell that already carries the
selected color. -/
lemma fillCellAtIndex_samecolor (painting : Bool) (sel : Nat) (g : List Cell)
    (i : Nat) (c : Cell) (hc : g[i]? = some c)
    (hs : c.filledColorIndex = some sel) :
    fillCellAtIndex painting sel g i = ⟨g, false, 0⟩ := by
  unfold fillCellAtIndex
  rw [hc]
  simp [hs]

/-- An index whose cell meets a skip condition is never returned by
`fillCellsWithBrush`. -/
lemma skipped_not_in_brush (width height brushSize sel : Nat) (g : List Cell)
    (centerCol centerRow i : Nat) (c : Cell) (hc : g[i]? = some c)
    (hskip : brushSkips sel c) :
    i ∉ fillCellsWithBrush width height brushSize sel g centerCol centerRow := by
  intro hmem
  unfold fillCellsWithBrush at hmem
  have hp := List.of_mem_filter hmem
  rw [hc] at hp
  simp only [decide_eq_true_eq] at hp
  exact hp hskip

/-- C1: a correct cell (applied color defined and equal to its target)
is immutable — `fillCellAtIndex` (tap or drag) returns without any
change, the brush fill never selects it, and the stroke-end commit
leaves it untouched, in any well-formed grid. -/
theorem C1_correct_cell_immutable (grid : List Cell)
    (width height brushSize sel : Nat) (painting : Bool) (idxs : List Nat)
    (centerCol centerRow i : Nat) (c : Cell) (hWF : gridWF grid)
    (hc : grid[i]? = some c) (hcor : cellCorrect c) :
    fillCellAtIndex painting sel grid i = ⟨grid, false, 0⟩ ∧
    i ∉ fillCellsWithBrush width height brushSize sel grid centerCol centerRow ∧
    (commitStroke sel idxs grid)[i]? = some c := by
  have hcor' : c.filledColorIndex = some c.colorIndex := hcor
  have hf : c.filled = true :=
    hWF c (List.getElem?_mem hc) (by rw [hcor']; exact Option.some_ne_none _)
  exact ⟨fillCellAtIndex_correct_noop painting sel grid i c hc hf hcor',
    skipped_not_in_brush width height brushSize sel grid centerCol centerRow i c hc
      (Or.inr ⟨hf, hcor'⟩),
    commitStroke_getElem sel idxs grid i c hc
      (commitCell_eq_self sel c hf (Or.inr hcor'))⟩

/-- C1 witness: a correctly filled cell on a 1×1 grid is untouched by a
tap with another color, excluded from a brush fill, and unchanged by a
commit of a stroke containing it. -/
theorem C1_correct_cell_immutable_witness :
    gridWF [Cell.mk 0 true (some 0)] ∧ cellCorrect (Cell.mk 0 true (some 0)) ∧
    fillCellAtIndex false 1 [Cell.mk 0 true (some 0)] 0 =
      ⟨[Cell.mk 0 true (some 0)], false, 0⟩ ∧
    0 ∉ fillCellsWithBrush 1 1 1 1 [Cell.mk 0 true (some 0)] 0 0 ∧
    (commitStroke 1 [0] [Cell.mk 0 true (some 0)])[0]? =
      some (Cell.mk 0 true (some 0)) := by
  have h := C1_correct_cell_immutable [Cell.mk 0 true (some 0)] 1 1 1 1 false [0] 0 0 0
    (Cell.mk 0 true (some 0)) (by decide) (by decide) (by decide)
  exact ⟨by decide, by decide, h.1, h.2.1, h.2.2⟩

/-- C4 counterexample: in a size-1 drag stroke over a cell that already
carries the selected color (applied 0 on target 1), the move handler
still records the cell in the stroke's touched set — the claim's
"adds nothing to the stroke's touched-set" fails on this path. -/
theorem C4_counterexample :
    (Cell.mk 1 true (some 0)).filledColorIndex = some 0 ∧
    (handlePointerMoveSingle 1 1 1 0 (some (0, 0)) 0 0
      ⟨[Cell.mk 1 true (some 0)], true, false, [], 0, 0⟩).painted = [0] := by
  constructor
  · rfl
  · rfl

/-- C4 (amended): reapplying the already-applied color to a cell changes
nothing in the canonical state — `fillCellAtIndex` returns unchanged,
the multi-cell brush never selects the cell, and any stroke commit
(even one whose touched set contains the cell, as the size-1 drag path
records it) leaves the cell exactly as it was. -/
theorem C4_same_color_idempotent (grid : List Cell)
    (width height brushSize sel : Nat) (painting : Bool) (idxs : List Nat)
    (centerCol centerRow i : Nat) (c : Cell) (hWF : gridWF grid)
    (hc : grid[i]? = some c) (hs : c.filledColorIndex = some sel) :
    fillCellAtIndex painting sel grid i = ⟨grid, false, 0⟩ ∧
    i ∉ fillCellsWithBrush width height brushSize sel grid centerCol centerRow ∧
    (commitStroke sel idxs grid)[i]? = some c := by
  have hf : c.filled = true :=
    hWF c (List.getElem?_mem hc) (by rw [hs]; exact Option.some_ne_none _)
  exact ⟨fillCellAtIndex_samecolor painting sel grid i c hc hs,
    skipped_not_in_brush width height brushSize sel grid centerCol centerRow i c hc
      (Or.inl hs),
    commitStroke_getElem sel idxs grid i c hc
      (commitCell_eq_self sel c hf (Or.inl hs))⟩

/-- C4 witness: a cell with the selected (incorrect) color already
applied is skipped by tap, brush and commit. -/
theorem C4_same_color_idempotent_witness :
    gridWF [Cell.mk 1 true (some 0)] ∧
    (Cell.mk 1 true (some 0)).filledColorIndex = some 0 ∧
    fillCellAtIndex false 0 [Cell.mk 1 true (some 0)] 0 =
      ⟨[Cell.mk 1 true (some 0)], false, 0⟩ ∧
    0 ∉ fillCellsWithBrush 1 1 2 0 [Cell.mk 1 true (some 0)] 0 0 ∧
    (commitStroke 0 [0] [Cell.mk 1 true (some 0)])[0]? =
      some (Cell.mk 1 true (some 0)) := by
  have h := C4_same_color_idempotent [Cell.mk 1 true (some 0)] 1 1 2 0 false [0] 0 0 0
    (Cell.mk 1 true (some 0)) (by decide) (by decide) (by decide)
  exact ⟨by decide, by decide, h.1, h.2.1, h.2.2⟩

/-- The boolean start-cell test, unfolded. -/
lemma isValidPaintStartCell_iff (sel : Nat) (grid : List Cell) (i : Nat) :
    isValidPaintStartCell sel grid i = true ↔
      ∃ c, grid[i]? = some c ∧ c.filled = false ∧ c.colorIndex = sel := by
  unfold isValidPaintStartCell
  cases hg : grid[i]? with
  | none => simp
  | some c => simp [Bool.and_eq_true, Bool.not_eq_true']

/-- The mode bit chosen by the first-pointer-down handler. -/
lemma handlePointerDown_isPainting (width height brushSize sel : Nat)
    (grid : List Cell) (r : Option (Nat × Nat)) :
    (handlePointerDown width height brushSize sel grid r).isPainting =
      (match r with
       | some (col, row) => isValidPaintStartCell sel grid (row * width + col)
       | none => false) := by
  cases r with
  | none => rfl
  | some p =>
    obtain ⟨col, row⟩ := p
    by_cases hv : isValidPaintStartCell sel grid (row * width + col) = true
    · by_cases hb : brushSize = 1 <;> simp [handlePointerDown, hv, hb]
    · rw [Bool.not_eq_true] at hv
      simp [handlePointerDown, hv]

/-- C6 counterexample: a cell filled with a wrong color (applied 1,
target 0 = selected) is "not yet correct" with matching target, so the
claim requires Paint mode; the code requires an *unfilled* cell and
enters Pan instead. -/
theorem C6_counterexample :
    ¬ cellCorrect (Cell.mk 0 true (some 1)) ∧
    (Cell.mk 0 true (some 1)).colorIndex = 0 ∧
    (handlePointerDown 1 1 1 0 [Cell.mk 0 true (some 1)] (some (0, 0))).isPainting
      = false ∧
    (handlePointerDown 1 1 1 0 [Cell.mk 0 true (some 1)] (some (0, 0))).isPanning
      = true := by
  exact ⟨by decide, rfl, by decide, by decide⟩

/-- C6 (amended): the first pointer-down enters Paint mode exactly when
the cell under the pointer is *unfilled* and its target color equals the
selected color; it then immediately applies the brush to the starting
footprint (optimistically — no canonical write).  Any other cell, or a
pointer outside the grid, enters Pan mode. -/
theorem C6_pointer_down_classification (width height brushSize sel : Nat)
    (grid : List Cell) (r : Option (Nat × Nat)) :
    ((handlePointerDown width height brushSize sel grid r).isPainting = true ↔
      ∃ col row c, r = some (col, row) ∧ grid[row * width + col]? = some c ∧
        c.filled = false ∧ c.colorIndex = sel) ∧
    ((handlePointerDown width height brushSize sel grid r).isPainting = false →
      (handlePointerDown width height brushSize sel grid r).isPanning = true) ∧
    (∀ col row, r = some (col, row) →
      isValidPaintStartCell sel grid (row * width + col) = true →
      (handlePointerDown width height brushSize sel grid r).painted =
        (if brushSize = 1 then [row * width + col]
         else fillCellsWithBrush width height brushSize sel grid col row) ∧
      (handlePointerDown width height brushSize sel grid r).grid = grid ∧
      (handlePointerDown width height brushSize sel grid r).writes = 0) := by
  refine ⟨?_, ?_, ?_⟩
  · rw [handlePointerDown_isPainting]
    cases r with
    | none => simp
    | some p =>
      obtain ⟨col, row⟩ := p
      rw [isValidPaintStartCell_iff]
      constructor
      · rintro ⟨c, hc, h1, h2⟩
        exact ⟨col, row, c, rfl, hc, h1, h2⟩
      · rintro ⟨col', row', c, heq, hc, h1, h2⟩
        injection heq with heq
        cases heq
        exact ⟨c, hc, h1, h2⟩
  · intro hp
    cases r with
    | none => rfl
    | some p =>
      obtain ⟨col, row⟩ := p
      by_cases hv : isValidPaintStartCell sel grid (row * width + col) = true
      · exfalso
        rw [handlePointerDown_isPainting] at hp
        simp [hv] at hp
      · rw [Bool.not_eq_true] at hv
        simp [handlePointerDown, hv]
  · rintro col row rfl hvalid
    by_cases hb : brushSize = 1
    · have hfp := fillCellAtIndex_painting sel grid (row * width + col)
      simp [handlePointerDown, hvalid, hb, hfp.1, hfp.2]
    · simp [handlePointerDown, hvalid, hb]

/-- C6 witness: on a fresh 1×1 grid with matching selected color, the
first pointer-down enters Paint and records the starting cell without a
canonical write. -/
theorem C6_pointer_down_classification_witness :
    isValidPaintStartCell 0 [Cell.mk 0 false none] 0 = true ∧
    (handlePointerDown 1 1 1 0 [Cell.mk 0 false none] (some (0, 0))).painted =
      (if (1 : Nat) = 1 then [0 * 1 + 0]
       else fillCellsWithBrush 1 1 1 0 [Cell.mk 0 false none] 0 0) ∧
    (handlePointerDown 1 1 1 0 [Cell.mk 0 false none] (some (0, 0))).grid =
      [Cell.mk 0 false none] ∧
    (handlePointerDown 1 1 1 0 [Cell.mk 0 false none] (some (0, 0))).writes = 0 := by
  have h := (C6_pointer_down_classification 1 1 1 0 [Cell.mk 0 false none]
    (some (0, 0))).2.2 0 0 rfl (by decide)
  exact ⟨by decide, h.1, h.2.1, h.2.2⟩

/-- A whole drag's worth of single-pointer move events. -/
def runMoves (width height brushSize sel : Nat)
    (moves : List (Option (Nat × Nat) × ℚ × ℚ)) (s : Stroke) : Stroke :=
  moves.foldl
    (fun st m => handlePointerMoveSingle width height brushSize sel m.1 m.2.1 m.2.2 st)
    s

lemma paintedInsert_ne_nil (i : Nat) (s : List Nat) : paintedInsert i s ≠ [] := by
  unfold paintedInsert
  split
  case isTrue hmem =>
    intro hnil
    rw [hnil] at hmem
    exact absurd hmem (List.not_mem_nil i)
  case isFalse => simp

lemma paintedInsertAll_ne_nil (new s : List Nat) (h : s ≠ []) :
    paintedInsertAll new s ≠ [] := by
  induction new generalizing s with
  | nil => exact h
  | cons j rest ih =>
    unfold paintedInsertAll at ih ⊢
    rw [List.foldl_cons]
    exact ih _ (paintedInsert_ne_nil j s)

/-- During Paint mode a move event never touches the canonical grid, the
write counter, or the mode flags, and keeps the touched set nonempty. -/
lemma moveStep_paint_invariant (width height brushSize sel : Nat)
    (r : Option (Nat × Nat)) (dx dy : ℚ) (s : Stroke) (hp : s.isPainting = true) :
    (handlePointerMoveSingle width height brushSize sel r dx dy s).grid = s.grid ∧
    (handlePointerMoveSingle width height brushSize sel r dx dy s).writes = s.writes ∧
    (handlePointerMoveSingle width height brushSize sel r dx dy s).isPainting = true ∧
    (handlePointerMoveSingle width height brushSize sel r dx dy s).isPanning =
      s.isPanning ∧
    (s.painted ≠ [] →
      (handlePointerMoveSingle width height brushSize sel r dx dy s).painted ≠ []) := by
  obtain ⟨g, ip, pn, pa, dd, wr⟩ := s
  have hip : ip = true := hp
  subst hip
  cases r with
  | none => exact ⟨rfl, rfl, rfl, rfl, fun h => h⟩
  | some p =>
    obtain ⟨col, row⟩ := p
    by_cases hb : brushSize = 1
    · subst hb
      by_cases hmem : (row * width + col) ∈ pa
      · simp [handlePointerMoveSingle, hmem]
      · have hfp := fillCellAtIndex_painting sel g (row * width + col)
        simp [handlePointerMoveSingle, hmem, hfp.1, hfp.2]
        exact fun _ => paintedInsert_ne_nil _ _
    · simp [handlePointerMoveSingle, hb]
      exact fun h => paintedInsertAll_ne_nil _ _ h

/-- The Paint-mode invariant holds across any sequence of moves. -/
lemma runMoves_paint_invariant (width height brushSize sel : Nat)
    (moves : List (Option (Nat × Nat) × ℚ × ℚ)) (s : Stroke)
    (hp : s.isPainting = true) :
    (runMoves width height brushSize sel moves s).grid = s.grid ∧
    (runMoves width height brushSize sel moves s).writes = s.writes ∧
    (runMoves width height brushSize sel moves s).isPainting = true ∧
    (runMoves width height brushSize sel moves s).isPanning = s.isPanning ∧
    (s.painted ≠ [] → (runMoves width height brushSize sel moves s).painted ≠ []) := by
  induction moves generalizing s with
  | nil => exact ⟨rfl, rfl, hp, rfl, fun h => h⟩
  | cons m rest ih =>
    unfold runMoves at ih ⊢
    rw [List.foldl_cons]
    have hstep := moveStep_paint_invariant width height brushSize sel m.1 m.2.1 m.2.2 s hp
    have hrest := ih (handlePointerMoveSingle width height brushSize sel m.1 m.2.1 m.2.2 s)
      hstep.2.2.1
    exact ⟨hrest.1.trans hstep.1, hrest.2.1.trans hstep.2.1, hrest.2.2.1,
      hrest.2.2.2.1.trans hstep.2.2.2.1,
      fun h => hrest.2.2.2.2 (hstep.2.2.2.2 h)⟩

/-- A pointer-up in Paint mode with a nonempty touched set performs the
single batched commit. -/
lemma handlePointerUp_commits (width height brushSize sel : Nat)
    (r : Option (Nat × Nat)) (s : Stroke) (hp : s.isPainting = true)
    (hn : s.isPanning = false) (hne : s.painted ≠ []) :
    (handlePointerUp width height brushSize sel r s).grid =
      commitStroke sel s.painted s.grid ∧
    (handlePointerUp width height brushSize sel r s).writes = s.writes + 1 := by
  unfold handlePointerUp
  simp [hp, hn, hne]

lemma brushStart_le (brushSize center : Nat) : brushStart brushSize center ≤ center := by
  unfold brushStart
  split <;> omega

lemma le_brushEnd (limit brushSize center : Nat) (hb : 0 < brushSize)
    (hc : center < limit) : center ≤ brushEnd limit brushSize center := by
  unfold brushEnd brushStart
  split <;> omega

/-- A valid paint-start cell is filled by its own starting brush call. -/
lemma start_mem_brush (width height brushSize sel : Nat) (grid : List Cell)
    (col row : Nat) (hb : 0 < brushSize) (hcw : col < width) (hrh : row < height)
    (hWF : gridWF grid)
    (hvalid : isValidPaintStartCell sel grid (row * width + col) = true) :
    (row * width + col) ∈ fillCellsWithBrush width height brushSize sel grid col row := by
  obtain ⟨c, hc, hf, hcol⟩ := (isValidPaintStartCell_iff sel grid _).1 hvalid
  have hnone : c.filledColorIndex = none := by
    by_contra hne
    have := hWF c (List.getElem?_mem hc) hne
    rw [hf] at this
    exact Bool.false_ne_true this
  unfold fillCellsWithBrush
  rw [List.mem_filter]
  constructor
  · rw [mem_brushFootprint]
    exact ⟨col, row, rfl, brushStart_le brushSize col,
      le_brushEnd width brushSize col hb hcw, brushStart_le brushSize row,
      le_brushEnd height brushSize row hb hrh⟩
  · rw [hc]
    simp only [decide_eq_true_eq]
    rintro (h | h)
    · rw [hnone] at h
      exact Option.noConfusion h
    · rw [hf] at h
      exact Bool.false_ne_true h.1

/-- The touched set recorded at a valid paint-start is nonempty. -/
lemma handlePointerDown_painted_ne_nil (width height brushSize sel : Nat)
    (grid : List Cell) (col row : Nat) (hb : 0 < brushSize) (hcw : col < width)
    (hrh : row < height) (hWF : gridWF grid)
    (hvalid : isValidPaintStartCell sel grid (row * width + col) = true) :
    (handlePointerDown width height brushSize sel grid (some (col, row))).painted
      ≠ [] := by
  by_cases h1 : brushSize = 1
  · simp [handlePointerDown, hvalid, h1]
  · simp only [handlePointerDown, hvalid, if_true, h1, if_false, ite_false, ite_true]
    intro hnil
    have := start_mem_brush width height brushSize sel grid col row hb hcw hrh hWF hvalid
    rw [hnil] at this
    exact absurd this (List.not_mem_nil _)

/-- A pointer-down on a valid start cell enters Paint mode without any
canonical write. -/
lemma handlePointerDown_valid_state (width height brushSize sel : Nat)
    (grid : List Cell) (col row : Nat)
    (hvalid : isValidPaintStartCell sel grid (row * width + col) = true) :
    (handlePointerDown width height brushSize sel grid (some (col, row))).grid =
      grid ∧
    (handlePointerDown width height brushSize sel grid (some (col, row))).writes
      = 0 ∧
    (handlePointerDown width height brushSize sel grid (some (col, row))).isPainting
      = true ∧
    (handlePointerDown width height brushSize sel grid (some (col, row))).isPanning
      = false := by
  by_cases h1 : brushSize = 1
  · have hfp := fillCellAtIndex_painting sel grid (row * width + col)
    simp [handlePointerDown, hvalid, h1, hfp.1, hfp.2]
  · simp [handlePointerDown, hvalid, h1]

/-- C2: a paint stroke (pointer-down on a valid start cell, any number
of move events, then the terminating pointer event) leaves the canonical
grid untouched while active, and at stroke end issues exactly one
canonical commit carrying the stroke's full touched set. -/
theorem C2_single_commit_per_stroke (width height brushSize sel : Nat)
    (grid : List Cell) (col row : Nat)
    (moves : List (Option (Nat × Nat) × ℚ × ℚ)) (rUp : Option (Nat × Nat))
    (hb : 0 < brushSize) (hcw : col < width) (hrh : row < height)
    (hWF : gridWF grid)
    (hvalid : isValidPaintStartCell sel grid (row * width + col) = true) :
    (handlePointerDown width height brushSize sel grid (some (col, row))).grid =
      grid ∧
    (handlePointerDown width height brushSize sel grid (some (col, row))).writes
      = 0 ∧
    (runMoves width height brushSize sel moves
      (handlePointerDown width height brushSize sel grid (some (col, row)))).grid =
      grid ∧
    (runMoves width height brushSize sel moves
      (handlePointerDown width height brushSize sel grid (some (col, row)))).writes
      = 0 ∧
    (handlePointerUp width height brushSize sel rUp
      (runMoves width height brushSize sel moves
        (handlePointerDown width height brushSize sel grid (some (col, row))))).grid =
      commitStroke sel
        (runMoves width height brushSize sel moves
          (handlePointerDown width height brushSize sel grid (some (col, row)))).painted
        grid ∧
    (handlePointerUp width height brushSize sel rUp
      (runMoves width height brushSize sel moves
        (handlePointerDown width height brushSize sel grid (some (col, row))))).writes
      = 1 := by
  have hd := handlePointerDown_valid_state width height brushSize sel grid col row
    hvalid
  have hne := handlePointerDown_painted_ne_nil width height brushSize sel grid col row
    hb hcw hrh hWF hvalid
  have hrun := runMoves_paint_invariant width height brushSize sel moves
    (handlePointerDown width height brushSize sel grid (some (col, row))) hd.2.2.1
  have hup := handlePointerUp_commits width height brushSize sel rUp
    (runMoves width height brushSize sel moves
      (handlePointerDown width height brushSize sel grid (some (col, row))))
    hrun.2.2.1 (hrun.2.2.2.1.trans hd.2.2.2) (hrun.2.2.2.2 hne)
  refine ⟨hd.1, hd.2.1, hrun.1.trans hd.1, by rw [hrun.2.1, hd.2.1], ?_, ?_⟩
  · rw [hup.1, hrun.1, hd.1]
  · rw [hup.2, hrun.2.1, hd.2.1]

/-- C2 witness: a 1×1 grid, one valid start cell, two redundant move
events, then release — the canonical grid is written exactly once, by
the commit of the touched set `[0]`. -/
theorem C2_single_commit_per_stroke_witness :
    isValidPaintStartCell 0 [Cell.mk 0 false none] (0 * 1 + 0) = true ∧
    (handlePointerUp 1 1 1 0 none
      (runMoves 1 1 1 0 [(some (0, 0), 0, 0), (none, 1, 1)]
        (handlePointerDown 1 1 1 0 [Cell.mk 0 false none] (some (0, 0))))).grid =
      commitStroke 0
        (runMoves 1 1 1 0 [(some (0, 0), 0, 0), (none, 1, 1)]
          (handlePointerDown 1 1 1 0 [Cell.mk 0 false none] (some (0, 0)))).painted
        [Cell.mk 0 false none] ∧
    (handlePointerUp 1 1 1 0 none
      (runMoves 1 1 1 0 [(some (0, 0), 0, 0), (none, 1, 1)]
        (handlePointerDown 1 1 1 0 [Cell.mk 0 false none] (some (0, 0))))).writes
      = 1 := by
  have h := C2_single_commit_per_stroke 1 1 1 0 [Cell.mk 0 false none] 0 0
    [(some (0, 0), 0, 0), (none, 1, 1)] none (by decide) (by decide) (by decide)
    (by decide) (by decide)
  exact ⟨by decide, h.2.2.2.2.1, h.2.2.2.2.2⟩

/-- A pointer-up with neither Paint nor Pan active (pinch, or a cancelled
stroke) touches nothing canonical. -/
lemma handlePointerUp_no_commit (width height brushSize sel : Nat)
    (r : Option (Nat × Nat)) (s : Stroke) (hp : s.isPainting = false)
    (hn : s.isPanning = false) :
    (handlePointerUp width height brushSize sel r s).grid = s.grid ∧
    (handlePointerUp width height brushSize sel r s).writes = s.writes := by
  unfold handlePointerUp
  simp [hp, hn]

/-- A pointer-up ending a real pan (drag ≥ 15 px) touches nothing
canonical. -/
lemma handlePointerUp_pan (width height brushSize sel : Nat)
    (r : Option (Nat × Nat)) (s : Stroke) (hp : s.isPainting = false)
    (hn : s.isPanning = true) (hd : 15 ≤ s.dragDistance) :
    (handlePointerUp width height brushSize sel r s).grid = s.grid ∧
    (handlePointerUp width height brushSize sel r s).writes = s.writes := by
  unfold handlePointerUp
  simp [hp, hn, not_lt.mpr hd]

/-- C8 counterexample: pointer-down on a valid cell records touched cell
0, but a second pointer-down mid-stroke cancels Paint mode and clears
the touched set, so the terminating pointer-up commits nothing — the
cell stays unfilled, though a commit of the touched set would have
filled it.  The claim's "touched cells are always committed" fails. -/
theorem C8_counterexample :
    (handlePointerDown 1 1 1 0 [Cell.mk 0 false none] (some (0, 0))).painted = [0] ∧
    (handlePointerUp 1 1 1 0 none (secondPointerDown
        (handlePointerDown 1 1 1 0 [Cell.mk 0 false none] (some (0, 0))))).grid =
      [Cell.mk 0 false none] ∧
    commitStroke 0 [0] [Cell.mk 0 false none] = [Cell.mk 0 true (some 0)] := by
  exact ⟨by decide, by decide, by decide⟩

/-- C8 (amended): pointer-up, -leave and -cancel all run the same
resolution; it always commits an active paint stroke's touched set (no
rollback path), and ends pinch strokes and real pans without canonical
mutation.  A second pointer going down mid-stroke, however, cancels
Paint mode and discards the touched set, so the eventual pointer-up
commits nothing for that stroke. -/
theorem C8_pointer_loss_resolution (width height brushSize sel : Nat)
    (r : Option (Nat × Nat)) (s : Stroke) :
    handlePointerLeave width height brushSize sel r s =
      handlePointerUp width height brushSize sel r s ∧
    handlePointerCancel width height brushSize sel r s =
      handlePointerUp width height brushSize sel r s ∧
    (s.isPainting = true → s.isPanning = false → s.painted ≠ [] →
      (handlePointerUp width height brushSize sel r s).grid =
        commitStroke sel s.painted s.grid ∧
      (handlePointerUp width height brushSize sel r s).writes = s.writes + 1) ∧
    (s.isPainting = false → s.isPanning = false →
      (handlePointerUp width height brushSize sel r s).grid = s.grid ∧
      (handlePointerUp width height brushSize sel r s).writes = s.writes) ∧
    (s.isPainting = false → s.isPanning = true → 15 ≤ s.dragDistance →
      (handlePointerUp width height brushSize sel r s).grid = s.grid ∧
      (handlePointerUp width height brushSize sel r s).writes = s.writes) ∧
    ((secondPointerDown s).isPainting = false ∧
      (secondPointerDown s).painted = [] ∧
      (secondPointerDown s).grid = s.grid ∧
      (handlePointerUp width height brushSize sel r (secondPointerDown s)).grid =
        s.grid ∧
      (handlePointerUp width height brushSize sel r (secondPointerDown s)).writes =
        s.writes) := by
  refine ⟨rfl, rfl,
    fun hp hn hne => handlePointerUp_commits width height brushSize sel r s hp hn hne,
    fun hp hn => handlePointerUp_no_commit width height brushSize sel r s hp hn,
    fun hp hn hd => handlePointerUp_pan width height brushSize sel r s hp hn hd, ?_⟩
  have h := handlePointerUp_no_commit width height brushSize sel r
    (secondPointerDown s) rfl rfl
  exact ⟨rfl, rfl, rfl, h.1, h.2⟩

/-- C8 witness: a paint stroke commits on pointer-up; a pinch-ended and
a long-pan stroke do not. -/
theorem C8_pointer_loss_resolution_witness :
    (handlePointerUp 1 1 1 0 none
      ⟨[Cell.mk 0 false none], true, false, [0], 0, 0⟩).grid =
      commitStroke 0 [0] [Cell.mk 0 false none] ∧
    (handlePointerUp 1 1 1 0 none
      ⟨[Cell.mk 0 false none], false, false, [], 0, 0⟩).grid =
      [Cell.mk 0 false none] ∧
    (handlePointerUp 1 1 1 0 none
      ⟨[Cell.mk 0 false none], false, true, [], 20, 0⟩).grid =
      [Cell.mk 0 false none] :=
  ⟨((C8_pointer_loss_resolution 1 1 1 0 none
      ⟨[Cell.mk 0 false none], true, false, [0], 0, 0⟩).2.2.1 rfl rfl
      (by decide)).1,
   ((C8_pointer_loss_resolution 1 1 1 0 none
      ⟨[Cell.mk 0 false none], false, false, [], 0, 0⟩).2.2.2.1 rfl rfl).1,
   ((C8_pointer_loss_resolution 1 1 1 0 none
      ⟨[Cell.mk 0 false none], false, true, [], 20, 0⟩).2.2.2.2.1 rfl rfl
      (by decide)).1⟩

lemma commitStep_length (sel : Nat) (g : List Cell) (j : Nat) :
    (commitStep sel g j).length = g.length := by
  unfold commitStep
  cases hj : g[j]? <;> simp

lemma commitStroke_length (sel : Nat) (idxs : List Nat) (g : List Cell) :
    (commitStroke sel idxs g).length = g.length := by
  induction idxs generalizing g with
  | nil => rfl
  | cons j rest ih =>
    unfold commitStroke at ih ⊢
    rw [List.foldl_cons]
    exact (ih _).trans (commitStep_length sel g j)

lemma fillCellAtIndex_length (painting : Bool) (sel : Nat) (g : List Cell) (i : Nat) :
    (fillCellAtIndex painting sel g i).grid.length = g.length := by
  unfold fillCellAtIndex
  cases hg : g[i]? with
  | none => rfl
  | some c =>
    dsimp only
    split_ifs <;> simp

lemma applyPaintOp_length (g : List Cell) (op : PaintOp) :
    (applyPaintOp g op).length = g.length := by
  cases op with
  | single sel i => exact fillCellAtIndex_length false sel g i
  | batch sel idxs => exact commitStroke_length sel idxs g

lemma gridWF_set (g : List Cell) (i : Nat) (x : Cell) (hwf : gridWF g)
    (hx : x.filledColorIndex ≠ none → x.filled = true) : gridWF (g.set i x) := by
  intro c hc hne
  rcases List.mem_or_eq_of_mem_set hc with h | rfl
  · exact hwf c h hne
  · exact hx hne

lemma gridWF_commitStep (sel : Nat) (g : List Cell) (j : Nat) (h : gridWF g) :
    gridWF (commitStep sel g j) := by
  unfold commitStep
  cases hj : g[j]? with
  | none => exact h
  | some d =>
    refine gridWF_set g j _ h ?_
    unfold commitCell
    split
    · intro _
      rfl
    · exact h d (List.getElem?_mem hj)

lemma gridWF_commitStroke (sel : Nat) (idxs : List Nat) (g : List Cell)
    (h : gridWF g) : gridWF (commitStroke sel idxs g) := by
  induction idxs generalizing g with
  | nil => exact h
  | cons j rest ih =>
    unfold commitStroke at ih ⊢
    rw [List.foldl_cons]
    exact ih _ (gridWF_commitStep sel g j h)

lemma gridWF_fillCellAtIndex (painting : Bool) (sel : Nat) (g : List Cell) (i : Nat)
    (h : gridWF g) : gridWF (fillCellAtIndex painting sel g i).grid := by
  unfold fillCellAtIndex
  cases hg : g[i]? with
  | none => exact h
  | some c =>
    dsimp only
    split_ifs with h1 h2 h3
    · exact h
    · exact h
    · exact h
    · exact gridWF_set g i _ h (fun _ => rfl)

lemma gridWF_applyPaintOp (g : List Cell) (op : PaintOp) (h : gridWF g) :
    gridWF (applyPaintOp g op) := by
  cases op with
  | single sel i => exact gridWF_fillCellAtIndex false sel g i h
  | batch sel idxs => exact gridWF_commitStroke sel idxs g h

/-- A correct cell (by the progress tracker's test) in a well-formed grid
survives any single canonical paint operation at its exact position. -/
lemma applyPaintOp_getElem_correct (g : List Cell) (op : PaintOp) (i : Nat)
    (c : Cell) (hwf : gridWF g) (hc : g[i]? = some c) (hcor : cellCorrect c) :
    (applyPaintOp g op)[i]? = some c := by
  have hcor' : c.filledColorIndex = some c.colorIndex := hcor
  have hf : c.filled = true :=
    hwf c (List.getElem?_mem hc) (by rw [hcor']; exact Option.some_ne_none _)
  cases op with
  | single sel j =>
    show (fillCellAtIndex false sel g j).grid[i]? = some c
    by_cases hij : j = i
    · subst hij
      rw [fillCellAtIndex_correct_noop false sel g j c hc hf hcor']
      exact hc
    · unfold fillCellAtIndex
      cases hj : g[j]? with
      | none => exact hc
      | some d =>
        dsimp only
        split_ifs <;>
          first
          | exact hc
          | (rw [List.getElem?_set_ne hij]; exact hc)
  | batch sel idxs =>
    exact commitStroke_getElem sel idxs g i c hc
      (commitCell_eq_self sel c hf (Or.inr hcor'))

/-- Counting a boolean predicate is monotone under pointwise preservation
of the cells satisfying it. -/
lemma countP_le_of_pointwise (p : Cell → Bool) :
    ∀ g g' : List Cell, g.length = g'.length →
      (∀ (i : Nat) (c : Cell), g[i]? = some c → p c = true → g'[i]? = some c) →
      g.countP p ≤ g'.countP p := by
  intro g
  induction g with
  | nil =>
    intro g' _ _
    simp
  | cons a as ih =>
    intro g' hlen hpt
    cases g' with
    | nil => simp at hlen
    | cons b bs =>
      have hlen' : as.length = bs.length := by simpa using hlen
      have htail : ∀ (i : Nat) (c : Cell), as[i]? = some c → p c = true →
          bs[i]? = some c := by
        intro i c hc hp
        have := hpt (i + 1) c (by simpa using hc) hp
        simpa using this
      by_cases hpa : p a = true
      · have hb : b = a := by
          have h0 := hpt 0 a (by simp) hpa
          simpa using h0
        subst hb
        simp only [List.countP_cons, hpa, if_true]
        exact Nat.add_le_add_right (ih bs hlen' htail) 1
      · have h1 : (a :: as).countP p = as.countP p := by
          simp [List.countP_cons, hpa]
        rw [h1]
        calc as.countP p ≤ bs.countP p := ih bs hlen' htail
          _ ≤ (b :: bs).countP p := by
            simp only [List.countP_cons]
            omega

lemma correctlyFilled_le_applyPaintOp (g : List Cell) (op : PaintOp)
    (hwf : gridWF g) :
    correctlyFilled g ≤ correctlyFilled (applyPaintOp g op) := by
  unfold correctlyFilled
  refine countP_le_of_pointwise _ g (applyPaintOp g op)
    (applyPaintOp_length g op).symm ?_
  intro i c hc hp
  exact applyPaintOp_getElem_correct g op i c hwf hc (of_decide_eq_true hp)

/-- Rounding `Math.round((correct/total)*100)` is monotone in the correct count at
fixed length. -/
lemma overallPercent_mono (g g' : List Cell) (hlen : g.length = g'.length)
    (hc : correctlyFilled g ≤ correctlyFilled g') :
    overallPercent g ≤ overallPercent g' := by
  unfold overallPercent
  rw [← hlen]
  rcases Nat.eq_zero_or_pos g.length with h0 | hpos
  · rw [h0]
    simp
  · have hq : ((correctlyFilled g : ℚ) / (g.length : ℚ)) * 100 ≤
        ((correctlyFilled g' : ℚ) / (g.length : ℚ)) * 100 := by
      have hp : (0 : ℚ) < (g.length : ℚ) := by exact_mod_cast hpos
      gcongr
    rw [round_eq, round_eq]
    exact Int.floor_le_floor (by linarith)

/-- C9: over any sequence of canonical paint operations from a
well-formed grid, the overall completion percentage never decreases, and
a correct cell is never changed again (in particular never back to
incorrect or unfilled). -/
theorem C9_completion_monotone (grid : List Cell) (ops : List PaintOp)
    (hWF : gridWF grid) :
    overallPercent grid ≤ overallPercent (applyPaintOps grid ops) ∧
    (∀ (i : Nat) (c : Cell), grid[i]? = some c → cellCorrect c →
      (applyPaintOps grid ops)[i]? = some c) := by
  induction ops generalizing grid with
  | nil => exact ⟨le_refl _, fun i c hc _ => hc⟩
  | cons op rest ih =>
    have hwf' := gridWF_applyPaintOp grid op hWF
    have hstep := correctlyFilled_le_applyPaintOp grid op hWF
    have hrest := ih (applyPaintOp grid op) hwf'
    have happly : applyPaintOps grid (op :: rest) =
        applyPaintOps (applyPaintOp grid op) rest := by
      unfold applyPaintOps
      rw [List.foldl_cons]
    constructor
    · rw [happly]
      exact le_trans
        (overallPercent_mono grid (applyPaintOp grid op)
          (applyPaintOp_length grid op).symm hstep) hrest.1
    · intro i c hc hcor
      rw [happly]
      exact hrest.2 i c (applyPaintOp_getElem_correct grid op i c hWF hc hcor) hcor

/-- C9 witness: filling the second cell of a half-done 2-cell grid keeps
the percentage non-decreasing and leaves the already-correct first cell
untouched. -/
theorem C9_completion_monotone_witness :
    overallPercent [Cell.mk 0 true (some 0), Cell.mk 1 false none] ≤
      overallPercent (applyPaintOps [Cell.mk 0 true (some 0), Cell.mk 1 false none]
        [PaintOp.batch 1 [1]]) ∧
    (applyPaintOps [Cell.mk 0 true (some 0), Cell.mk 1 false none]
        [PaintOp.batch 1 [1]])[0]? = some (Cell.mk 0 true (some 0)) :=
  ⟨(C9_completion_monotone [Cell.mk 0 true (some 0), Cell.mk 1 false none]
      [PaintOp.batch 1 [1]] (by decide)).1,
   (C9_completion_monotone [Cell.mk 0 true (some 0), Cell.mk 1 false none]
      [PaintOp.batch 1 [1]] (by decide)).2 0 (Cell.mk 0 true (some 0))
      (by decide) (by decide)⟩

end PixelPaint
